import Mathlib

/-!
# tiny_ledger: the in-memory ledger of `internal/handler`

A shallow embedding of `internal/handler/types.go` and
`internal/handler/ledger.go`.

* Go `float64` is embedded as `F64`: IEEE-754 binary64 values with
  round-to-nearest-even addition and subtraction and the IEEE comparisons.
* Go `int64` is embedded as `Int` with explicit two's-complement wrap-around
  (`wrapInt64`) where the code does arithmetic on it.
* `CreateTransaction` holds `l.mu` from its first statement to its return, so a
  call is one atomic transition `Ledger → Ledger × Response`, and concurrent
  calls take effect one after the other in the order in which they get the lock.
* `time.Now()` and `uuid.New()` are inputs of the transition.
-/

namespace TinyLedger

/-! ## float64 -/

/-- A Go `float64`: a finite value `(-1)^neg * m * 2^e`, an infinity, or NaN. -/
inductive F64 where
  | finite (neg : Bool) (m : Nat) (e : Int)
  | inf (neg : Bool)
  | nan
deriving DecidableEq, Repr

namespace F64

/-- The signed integer `(-1)^neg * m`. -/
def sval (neg : Bool) (m : Nat) : Int :=
  if neg then -(m : Int) else (m : Int)

/-- Overflow check of IEEE rounding: a significand of at most 53 bits with an
exponent above 971 is at least `2^1024` and becomes an infinity. -/
def pack (neg : Bool) (m : Nat) (e : Int) : F64 :=
  if e > 971 then inf neg else finite neg m e

/-- Number of binary digits of `n`, by halving at most `fuel` times. -/
def bitLenAux : Nat → Nat → Nat
  | 0, _ => 0
  | fuel + 1, n => if n = 0 then 0 else bitLenAux fuel (n / 2) + 1

/-- Number of binary digits of `n` (`0` for `0`): `2^(bitLen n - 1) ≤ n < 2^(bitLen n)`. -/
def bitLen (n : Nat) : Nat := bitLenAux n n

/-- Round the positive real `n * 2^e0` to the nearest binary64 value, ties to
the even significand: 53 significant bits, least exponent `-1074`. -/
def roundNat (neg : Bool) (n : Nat) (e0 : Int) : F64 :=
  let bits : Int := (bitLen n : Int)
  let e : Int := max (e0 + bits - 53) (-1074)
  if e ≤ e0 then
    pack neg (n * 2 ^ (e0 - e).toNat) e
  else
    let k : Nat := (e - e0).toNat
    let q : Nat := n / 2 ^ k
    let r : Nat := n % 2 ^ k
    let half : Nat := 2 ^ (k - 1)
    let m : Nat := if half < r ∨ (r = half ∧ q % 2 = 1) then q + 1 else q
    if m = 2 ^ 53 then pack neg (2 ^ 52) (e + 1) else pack neg m e

/-- Round the exact value `v * 2^e0`; an exact zero takes the sign `zneg`. -/
def roundInt (v : Int) (e0 : Int) (zneg : Bool) : F64 :=
  if v = 0 then finite zneg 0 0
  else if v < 0 then roundNat true v.natAbs e0
  else roundNat false v.natAbs e0

/-- The integer `a` with `(-1)^neg * m * 2^e = a * 2^(min e e')`. -/
def scaled (neg : Bool) (m : Nat) (e e' : Int) : Int :=
  sval neg m * 2 ^ (e - min e e').toNat

/-- Go `x + y` on `float64`. -/
def add : F64 → F64 → F64
  | nan, _ => nan
  | _, nan => nan
  | inf s, inf t => if s = t then inf s else nan
  | inf s, finite _ _ _ => inf s
  | finite _ _ _, inf t => inf t
  | finite s1 m1 e1, finite s2 m2 e2 =>
    roundInt (scaled s1 m1 e1 e2 + scaled s2 m2 e2 e1) (min e1 e2) (s1 && s2)

/-- Go unary `-x` on `float64`. -/
def neg : F64 → F64
  | nan => nan
  | inf s => inf (!s)
  | finite s m e => finite (!s) m e

/-- Go `x - y` on `float64`. -/
def sub (x y : F64) : F64 := add x (neg y)

/-- Go `x < y` on `float64`. -/
def lt : F64 → F64 → Bool
  | nan, _ => false
  | _, nan => false
  | inf s, inf t => s && !t
  | inf s, finite _ _ _ => s
  | finite _ _ _, inf t => !t
  | finite s1 m1 e1, finite s2 m2 e2 =>
    decide (scaled s1 m1 e1 e2 < scaled s2 m2 e2 e1)

/-- Go `x <= y` on `float64`. -/
def le : F64 → F64 → Bool
  | nan, _ => false
  | _, nan => false
  | inf s, inf t => s || !t
  | inf s, finite _ _ _ => s
  | finite _ _ _, inf t => !t
  | finite s1 m1 e1, finite s2 m2 e2 =>
    decide (scaled s1 m1 e1 e2 ≤ scaled s2 m2 e2 e1)

/-- The constant `0.00`. -/
def zero : F64 := finite false 0 0

/-- The `float64` nearest to the natural number `n` (exact below `2^53`). -/
def ofNat (n : Nat) : F64 := roundInt (n : Int) 0 false

/-- Neither an infinity nor NaN. -/
def isFinite : F64 → Bool
  | finite _ _ _ => true
  | _ => false

/-- The exact value of a finite `float64`; `none` for infinities and NaN. -/
def toRat? : F64 → Option ℚ
  | finite s m e =>
    some ((sval s m : ℚ) * (2 : ℚ) ^ e)
  | _ => none

end F64

/-! ## int64 -/

/-- Two's-complement wrap-around of Go `int64` arithmetic. -/
def wrapInt64 (z : Int) : Int := (z + 2 ^ 63) % 2 ^ 64 - 2 ^ 63

/-! ## types.go -/

/-- Go `type TransactionType string`. -/
abbrev TransactionType := String

/-- Deposit indicates a deposit transaction. -/
def Deposit : TransactionType := "deposit"

/-- Withdrawal indicates a withdrawal transaction. -/
def Withdrawal : TransactionType := "withdrawal"

/-- An instant returned by `time.Now()`. -/
abbrev Time := Nat

/-- A value returned by `uuid.New()`. -/
abbrev UUID := Nat

/-- Transaction represents a single ledger entry. -/
structure Transaction where
  ID : Int
  Type_ : TransactionType
  Amount : F64
  Timestamp : Time
deriving DecidableEq, Repr

/-- Ledger represents the entire state of the in-memory ledger (the mutex
`mu` is the atomicity of `CreateTransaction`). -/
structure Ledger where
  ID : UUID
  TransactionHistory : List Transaction
  Balance : F64
  NextID : Int
deriving DecidableEq, Repr

/-- The JSON error payload. -/
structure ErrorResponse where
  Error : String
  Message : String
deriving DecidableEq, Repr

/-! ## ledger.go -/

/-- What `json.NewEncoder(w).Encode` was given. -/
inductive Payload where
  | error (e : ErrorResponse)
  | transaction (tx : Transaction)
deriving DecidableEq, Repr

/-- What a handler wrote to its `http.ResponseWriter`. -/
structure Response where
  contentType : String
  status : Nat
  payload : Payload
deriving DecidableEq, Repr

/-- Go `http.StatusBadRequest`. -/
def StatusBadRequest : Nat := 400

/-- Go `http.StatusCreated`. -/
def StatusCreated : Nat := 201

/-- writeError sends a structured JSON error response. -/
def writeError (status : Nat) (errCode message : String) : Response :=
  { contentType := "application/json", status := status,
    payload := Payload.error { Error := errCode, Message := message } }

/-- NewLedger creates and returns a new in-memory ledger. -/
def NewLedger (id : UUID) : Ledger :=
  { ID := id, TransactionHistory := [], Balance := F64.zero, NextID := 1 }

/-- The local `body` of `CreateTransaction` after a successful
`json.NewDecoder(r.Body).Decode(&body)`. `encoding/json` stores only finite
numbers in a `float64`: JSON has no literal for NaN or an infinity, and a number
out of range makes `Decode` return an error. -/
structure Body where
  Type_ : String
  Amount : F64
  finite : Amount.isFinite = true

/-- The request body as `CreateTransaction` sees it: `none` when `Decode`
returns an error. -/
abbrev Request := Option Body

/-- Lines 68-79 of `ledger.go`: build the transaction, append it, advance
`NextID`, answer 201 with the transaction. -/
def record (l : Ledger) (txType : TransactionType) (amount : F64) (now : Time) :
    Ledger × Response :=
  let tx : Transaction :=
    { ID := l.NextID, Type_ := txType, Amount := amount, Timestamp := now }
  ({ l with TransactionHistory := l.TransactionHistory ++ [tx],
            NextID := wrapInt64 (l.NextID + 1) },
   { contentType := "application/json", status := StatusCreated,
     payload := Payload.transaction tx })

/-- CreateTransaction handles POST /transactions. -/
def CreateTransaction (l : Ledger) (r : Request) (now : Time) : Ledger × Response :=
  match r with
  | none => (l, writeError StatusBadRequest "invalid_request" "Invalid JSON payload")
  | some body =>
    if F64.le body.Amount F64.zero then
      (l, writeError StatusBadRequest "invalid_amount" "Amount must be greater than zero")
    else if body.Type_ = Deposit then
      record { l with Balance := F64.add l.Balance body.Amount } Deposit body.Amount now
    else if body.Type_ = Withdrawal then
      if F64.lt l.Balance body.Amount then
        (l, writeError StatusBadRequest "insufficient_funds"
              "Not enough balance to complete withdrawal")
      else
        record { l with Balance := F64.sub l.Balance body.Amount } Withdrawal body.Amount now
    else
      (l, writeError StatusBadRequest "invalid_transaction_type"
            "Transaction type must be 'deposit' or 'withdrawal'")

/-- The ledger after serving the requests in order, each with the clock reading
of its `time.Now()`. -/
def Ledger.run (l : Ledger) (reqs : List (Request × Time)) : Ledger :=
  reqs.foldl (fun s p => (CreateTransaction s p.1 p.2).1) l

/-- A well-formed request with the whole number `n` as amount. -/
def mkRequest (type : String) (n : Nat) (h : (F64.ofNat n).isFinite = true) : Request :=
  some { Type_ := type, Amount := F64.ofNat n, finite := h }

/-! ## Specification vocabulary -/

/-- The error code of a response, when its payload is an error. -/
def Response.errorCode (resp : Response) : Option String :=
  match resp.payload with
  | Payload.error e => some e.Error
  | Payload.transaction _ => none

/-- The list of IDs of the history. -/
def Ledger.ids (l : Ledger) : List Int := l.TransactionHistory.map Transaction.ID

/-- The IDs `1, 2, ..., n` as `int64` values. -/
def idsUpTo (n : Nat) : List Int := (List.range n).map (fun (i : Nat) => wrapInt64 ((i : Int) + 1))

/-- The counter invariant: the history carries the IDs `1, 2, ...` in order and
`NextID` is the next one (all in `int64` arithmetic). -/
def Ledger.Sequential (l : Ledger) : Prop :=
  l.ids = idsUpTo l.TransactionHistory.length ∧
  l.NextID = wrapInt64 ((l.TransactionHistory.length : Int) + 1)

/-- The effect of one history entry on a balance, in `float64` arithmetic. -/
def applyEntry (b : F64) (tx : Transaction) : F64 :=
  if tx.Type_ = Deposit then F64.add b tx.Amount
  else if tx.Type_ = Withdrawal then F64.sub b tx.Amount
  else b

/-- The balance obtained from `0.00` by applying the history entries in order,
each step rounded as Go rounds it. -/
def replay (hist : List Transaction) : F64 := hist.foldl applyEntry F64.zero

/-- The amount of an entry as an exact number. -/
def Transaction.exactAmount (tx : Transaction) : ℚ := (tx.Amount.toRat?).getD 0

/-- The exact sum of the amounts of the entries of type `ty`. -/
def exactTotal (ty : TransactionType) (hist : List Transaction) : ℚ :=
  ((hist.filter (fun tx => tx.Type_ = ty)).map Transaction.exactAmount).sum

/-- The balance is, as an exact number, the sum of the deposit amounts minus the
sum of the withdrawal amounts of the history. -/
def Ledger.BalanceIsExactSum (l : Ledger) : Prop :=
  l.Balance.toRat? =
    some (exactTotal Deposit l.TransactionHistory - exactTotal Withdrawal l.TransactionHistory)

/-- The value `x` is the whole number `n`, written with `K` trailing zero bits. -/
def F64.Represents (x : F64) (n : Nat) : Prop :=
  ∃ K : Nat, x = F64.finite false (n * 2 ^ K) (-(K : Int))

/-- The amount is a whole number below `2^53`. -/
def F64.IsWhole (x : F64) : Prop := ∃ n : Nat, n < 2 ^ 53 ∧ x = F64.ofNat n

/-- The answers to the requests served in order, next to `Ledger.run`. -/
def Ledger.responses (l : Ledger) : List (Request × Time) → List Response
  | [] => []
  | p :: rest =>
    (CreateTransaction l p.1 p.2).2 :: Ledger.responses (CreateTransaction l p.1 p.2).1 rest

/-- The number of answers with status 201. -/
def countCreated (rs : List Response) : Nat :=
  rs.countP (fun r => decide (r.status = StatusCreated))

/-- The same decoded body served once per clock reading: the order in which
concurrent requests of one fixed body get the lock `l.mu`. -/
def sameRequests (body : Body) (times : List Time) : List (Request × Time) :=
  times.map (fun t => (some body, t))

/-- The exact value of a finite `float64` (`0` for an infinity or NaN). -/
def F64.exact (x : F64) : ℚ := (x.toRat?).getD 0

/-- The number of requests answered 201, times the amount, is at most the
starting balance, as exact numbers. -/
def SuccessesWithinBalance (l : Ledger) (body : Body) (times : List Time) : Prop :=
  (countCreated (l.responses (sameRequests body times)) : ℚ) * body.Amount.exact ≤
    l.Balance.exact

/-! ## Comparisons of `float64` -/

theorem F64.not_le_zero_of_pos (a : F64) (h : F64.lt F64.zero a = true) :
    F64.le a F64.zero = false := by
  cases a with
  | nan => simp [F64.lt, F64.zero] at h
  | inf s => simpa [F64.lt, F64.le, F64.zero] using h
  | finite s m e =>
    simp only [F64.lt, F64.zero, decide_eq_true_eq] at h
    simp only [F64.le, F64.zero, decide_eq_false_iff_not, not_le]
    simpa [F64.scaled, F64.sval] using h

theorem F64.not_lt_of_le (a b : F64) (h : F64.le a b = true) : F64.lt b a = false := by
  cases a with
  | nan => simp [F64.le] at h
  | inf s =>
    cases b with
    | nan => rfl
    | inf t => cases s <;> cases t <;> simp_all [F64.lt, F64.le]
    | finite t m e => simp_all [F64.lt, F64.le]
  | finite s m e =>
    cases b with
    | nan => rfl
    | inf t => simp_all [F64.lt, F64.le]
    | finite t n f => simp_all [F64.lt, F64.le]

/-! ## One request -/

/-- C3: a withdrawal of a positive amount greater than the balance is answered
400 `insufficient_funds`, and the ledger (balance, history, next ID) is exactly
what it was. -/
theorem withdrawal_insufficient_funds (l : Ledger) (body : Body) (now : Time)
    (hty : body.Type_ = Withdrawal)
    (hpos : F64.lt F64.zero body.Amount = true)
    (hins : F64.lt l.Balance body.Amount = true) :
    CreateTransaction l (some body) now =
      (l, writeError 400 "insufficient_funds" "Not enough balance to complete withdrawal") := by
  have hne : ¬ Withdrawal = Deposit := by decide
  simp [CreateTransaction, F64.not_le_zero_of_pos _ hpos, hne, hty, hins, StatusBadRequest]

theorem withdrawal_insufficient_funds_witness :
    F64.lt F64.zero (F64.ofNat 50) = true ∧
    F64.lt (NewLedger 0).Balance (F64.ofNat 50) = true ∧
    CreateTransaction (NewLedger 0) (mkRequest "withdrawal" 50 rfl) 0 =
      (NewLedger 0,
       writeError 400 "insufficient_funds" "Not enough balance to complete withdrawal") ∧
    (NewLedger 0).Balance = F64.zero ∧ (NewLedger 0).TransactionHistory = [] :=
  ⟨by decide, by decide,
   withdrawal_insufficient_funds (NewLedger 0) ⟨"withdrawal", F64.ofNat 50, rfl⟩ 0 rfl
     (by decide) (by decide),
   rfl, rfl⟩

/-- An `int64` below its maximum is incremented without wrap-around. -/
theorem wrapInt64_succ (z : Int) (hlo : -2 ^ 63 ≤ z) (hhi : z < 2 ^ 63 - 1) :
    wrapInt64 (z + 1) = z + 1 := by
  unfold wrapInt64
  norm_num at hlo hhi ⊢
  omega

/-- C5: a deposit of a positive amount is answered 201 with the transaction
(type deposit, the requested amount, ID the old `NextID`); the balance becomes
`Balance + amount` (Go `float64` addition), the transaction is appended at the
end of the history and `NextID` is incremented (Go `int64` increment, which is
`NextID + 1` below the maximum `int64`). -/
theorem deposit_recorded (l : Ledger) (body : Body) (now : Time)
    (hty : body.Type_ = Deposit)
    (hpos : F64.lt F64.zero body.Amount = true) :
    CreateTransaction l (some body) now =
      ({ ID := l.ID,
         TransactionHistory := l.TransactionHistory ++
           [{ ID := l.NextID, Type_ := Deposit, Amount := body.Amount, Timestamp := now }],
         Balance := F64.add l.Balance body.Amount,
         NextID := wrapInt64 (l.NextID + 1) },
       { contentType := "application/json", status := 201,
         payload := Payload.transaction
           { ID := l.NextID, Type_ := Deposit, Amount := body.Amount, Timestamp := now } }) ∧
    (-2 ^ 63 ≤ l.NextID → l.NextID < 2 ^ 63 - 1 →
      (CreateTransaction l (some body) now).1.NextID = l.NextID + 1) := by
  have hstep : CreateTransaction l (some body) now =
      ({ ID := l.ID,
         TransactionHistory := l.TransactionHistory ++
           [{ ID := l.NextID, Type_ := Deposit, Amount := body.Amount, Timestamp := now }],
         Balance := F64.add l.Balance body.Amount,
         NextID := wrapInt64 (l.NextID + 1) },
       { contentType := "application/json", status := 201,
         payload := Payload.transaction
           { ID := l.NextID, Type_ := Deposit, Amount := body.Amount, Timestamp := now } }) := by
    simp [CreateTransaction, F64.not_le_zero_of_pos _ hpos, hty, record, StatusCreated]
  refine ⟨hstep, fun hlo hhi => ?_⟩
  rw [hstep]
  exact wrapInt64_succ _ hlo hhi

theorem deposit_recorded_witness :
    F64.lt F64.zero (F64.ofNat 100) = true ∧
    (CreateTransaction (NewLedger 0) (mkRequest "deposit" 100 rfl) 7 =
      ({ ID := 0,
         TransactionHistory :=
           [{ ID := 1, Type_ := Deposit, Amount := F64.ofNat 100, Timestamp := 7 }],
         Balance := F64.add F64.zero (F64.ofNat 100),
         NextID := wrapInt64 (1 + 1) },
       { contentType := "application/json", status := 201,
         payload := Payload.transaction
           { ID := 1, Type_ := Deposit, Amount := F64.ofNat 100, Timestamp := 7 } }) ∧
     (-2 ^ 63 ≤ (NewLedger 0).NextID → (NewLedger 0).NextID < 2 ^ 63 - 1 →
       (CreateTransaction (NewLedger 0) (mkRequest "deposit" 100 rfl) 7).1.NextID =
         (NewLedger 0).NextID + 1)) ∧
    F64.add F64.zero (F64.ofNat 100) = F64.ofNat 100 ∧ wrapInt64 (1 + 1) = 2 :=
  ⟨by decide,
   deposit_recorded (NewLedger 0) ⟨"deposit", F64.ofNat 100, rfl⟩ 7 rfl (by decide),
   by decide, by decide⟩

/-- C6: a withdrawal of a positive amount not greater than the balance (equal
included) is answered 201 with the transaction (type withdrawal, the requested
amount, ID the old `NextID`); the balance becomes `Balance - amount` (Go
`float64` subtraction), the transaction is appended at the end of the history
and `NextID` is incremented (Go `int64` increment, which is `NextID + 1` below
the maximum `int64`). -/
theorem withdrawal_recorded (l : Ledger) (body : Body) (now : Time)
    (hty : body.Type_ = Withdrawal)
    (hpos : F64.lt F64.zero body.Amount = true)
    (hle : F64.le body.Amount l.Balance = true) :
    CreateTransaction l (some body) now =
      ({ ID := l.ID,
         TransactionHistory := l.TransactionHistory ++
           [{ ID := l.NextID, Type_ := Withdrawal, Amount := body.Amount, Timestamp := now }],
         Balance := F64.sub l.Balance body.Amount,
         NextID := wrapInt64 (l.NextID + 1) },
       { contentType := "application/json", status := 201,
         payload := Payload.transaction
           { ID := l.NextID, Type_ := Withdrawal, Amount := body.Amount,
             Timestamp := now } }) ∧
    (-2 ^ 63 ≤ l.NextID → l.NextID < 2 ^ 63 - 1 →
      (CreateTransaction l (some body) now).1.NextID = l.NextID + 1) := by
  have hne : ¬ Withdrawal = Deposit := by decide
  have hstep : CreateTransaction l (some body) now =
      ({ ID := l.ID,
         TransactionHistory := l.TransactionHistory ++
           [{ ID := l.NextID, Type_ := Withdrawal, Amount := body.Amount, Timestamp := now }],
         Balance := F64.sub l.Balance body.Amount,
         NextID := wrapInt64 (l.NextID + 1) },
       { contentType := "application/json", status := 201,
         payload := Payload.transaction
           { ID := l.NextID, Type_ := Withdrawal, Amount := body.Amount,
             Timestamp := now } }) := by
    simp [CreateTransaction, F64.not_le_zero_of_pos _ hpos, hty, hne,
      F64.not_lt_of_le _ _ hle, record, StatusCreated]
  refine ⟨hstep, fun hlo hhi => ?_⟩
  rw [hstep]
  exact wrapInt64_succ _ hlo hhi

theorem withdrawal_recorded_witness :
    F64.lt F64.zero (F64.ofNat 100) = true ∧
    F64.le (F64.ofNat 100) (F64.ofNat 200) = true ∧
    (CreateTransaction { NewLedger 0 with Balance := F64.ofNat 200 }
        (mkRequest "withdrawal" 100 rfl) 7 =
      ({ ID := 0,
         TransactionHistory :=
           [{ ID := 1, Type_ := Withdrawal, Amount := F64.ofNat 100, Timestamp := 7 }],
         Balance := F64.sub (F64.ofNat 200) (F64.ofNat 100),
         NextID := wrapInt64 (1 + 1) },
       { contentType := "application/json", status := 201,
         payload := Payload.transaction
           { ID := 1, Type_ := Withdrawal, Amount := F64.ofNat 100, Timestamp := 7 } }) ∧
     (-2 ^ 63 ≤ (1 : Int) → (1 : Int) < 2 ^ 63 - 1 →
       (CreateTransaction { NewLedger 0 with Balance := F64.ofNat 200 }
          (mkRequest "withdrawal" 100 rfl) 7).1.NextID = 1 + 1)) ∧
    F64.sub (F64.ofNat 200) (F64.ofNat 100) = F64.ofNat 100 :=
  ⟨by decide, by decide,
   withdrawal_recorded { NewLedger 0 with Balance := F64.ofNat 200 }
     ⟨"withdrawal", F64.ofNat 100, rfl⟩ 7 rfl (by decide) (by decide),
   by decide⟩

/-- C7, as stated, fails: a request of type "transfer" with amount -5 is
answered `invalid_amount`, not `invalid_transaction_type`, because the amount is
checked before the type. -/
theorem invalid_type_any_amount_counterexample :
    (CreateTransaction (NewLedger 0)
        (some ⟨"transfer", F64.neg (F64.ofNat 5), rfl⟩) 0).2.errorCode = some "invalid_amount" ∧
    (CreateTransaction (NewLedger 0)
        (some ⟨"transfer", F64.neg (F64.ofNat 5), rfl⟩) 0).2.errorCode ≠
      some "invalid_transaction_type" := by
  decide

/-- C7 (amended): a well-formed request whose type is neither "deposit" nor
"withdrawal" is answered 400 and leaves the ledger unchanged, whatever its
amount; the error code is `invalid_transaction_type` when the amount is
positive and `invalid_amount` when the amount is `<= 0`. -/
theorem invalid_type_rejected (l : Ledger) (body : Body) (now : Time)
    (hd : body.Type_ ≠ Deposit) (hw : body.Type_ ≠ Withdrawal) :
    CreateTransaction l (some body) now =
      (l, if F64.le body.Amount F64.zero = true then
            writeError 400 "invalid_amount" "Amount must be greater than zero"
          else
            writeError 400 "invalid_transaction_type"
              "Transaction type must be 'deposit' or 'withdrawal'") ∧
    (F64.lt F64.zero body.Amount = true →
      (CreateTransaction l (some body) now).2.errorCode = some "invalid_transaction_type") := by
  have hstep : CreateTransaction l (some body) now =
      (l, if F64.le body.Amount F64.zero = true then
            writeError 400 "invalid_amount" "Amount must be greater than zero"
          else
            writeError 400 "invalid_transaction_type"
              "Transaction type must be 'deposit' or 'withdrawal'") := by
    unfold CreateTransaction
    by_cases h : F64.le body.Amount F64.zero = true
    · simp [h, StatusBadRequest]
    · simp [h, hd, hw, StatusBadRequest]
  refine ⟨hstep, fun hpos => ?_⟩
  rw [hstep, F64.not_le_zero_of_pos _ hpos]
  rfl

theorem invalid_type_rejected_witness :
    "transfer" ≠ Deposit ∧ "transfer" ≠ Withdrawal ∧
    (CreateTransaction (NewLedger 0) (mkRequest "transfer" 20 rfl) 0 =
      (NewLedger 0,
       if F64.le (F64.ofNat 20) F64.zero = true then
         writeError 400 "invalid_amount" "Amount must be greater than zero"
       else
         writeError 400 "invalid_transaction_type"
           "Transaction type must be 'deposit' or 'withdrawal'") ∧
     (F64.lt F64.zero (F64.ofNat 20) = true →
       (CreateTransaction (NewLedger 0) (mkRequest "transfer" 20 rfl) 0).2.errorCode =
         some "invalid_transaction_type")) ∧
    F64.lt F64.zero (F64.ofNat 20) = true :=
  ⟨by decide, by decide,
   invalid_type_rejected (NewLedger 0) ⟨"transfer", F64.ofNat 20, rfl⟩ 0
     (by decide) (by decide),
   by decide⟩

/-- C8: a well-formed request whose amount is `<= 0` is answered 400
`invalid_amount`, whatever its type, and leaves the ledger (balance, history,
next ID) unchanged. -/
theorem nonpositive_amount_rejected (l : Ledger) (body : Body) (now : Time)
    (hle : F64.le body.Amount F64.zero = true) :
    CreateTransaction l (some body) now =
      (l, writeError 400 "invalid_amount" "Amount must be greater than zero") := by
  simp [CreateTransaction, hle, StatusBadRequest]

theorem nonpositive_amount_rejected_witness :
    F64.le (F64.neg (F64.ofNat 5)) F64.zero = true ∧
    CreateTransaction (NewLedger 0) (some ⟨"deposit", F64.neg (F64.ofNat 5), rfl⟩) 0 =
      (NewLedger 0, writeError 400 "invalid_amount" "Amount must be greater than zero") :=
  ⟨by decide,
   nonpositive_amount_rejected (NewLedger 0) ⟨"deposit", F64.neg (F64.ofNat 5), rfl⟩ 0
     (by decide)⟩

/-- C9: every request, decodable or not, has exactly one of two outcomes: the
answer is 201 and the new history is the old one followed by one new entry, or
the answer is 400 and the ledger is unchanged. A body that fails to decode is
answered 400 `invalid_request`. The old history is always a prefix of the new
one. -/
theorem create_transaction_two_outcomes (l : Ledger) (r : Request) (now : Time) :
    Xor' ((CreateTransaction l r now).2.status = 201 ∧
            ∃ tx, (CreateTransaction l r now).1.TransactionHistory =
              l.TransactionHistory ++ [tx])
         ((CreateTransaction l r now).2.status = 400 ∧
            (CreateTransaction l r now).1.Balance = l.Balance ∧
            (CreateTransaction l r now).1.TransactionHistory = l.TransactionHistory ∧
            (CreateTransaction l r now).1.NextID = l.NextID) ∧
    CreateTransaction l none now =
      (l, writeError 400 "invalid_request" "Invalid JSON payload") ∧
    l.TransactionHistory <+: (CreateTransaction l r now).1.TransactionHistory := by
  refine ⟨?_, rfl, ?_⟩
  · unfold Xor' CreateTransaction
    cases r with
    | none => simp [writeError, StatusBadRequest]
    | some body =>
      simp only
      split_ifs <;> simp [writeError, record, StatusBadRequest, StatusCreated]
  · unfold CreateTransaction
    cases r with
    | none => simp
    | some body =>
      simp only
      split_ifs <;> simp [record]

/-! ## Sequences of requests -/

theorem Ledger.run_nil (l : Ledger) : l.run [] = l := rfl

theorem Ledger.run_cons (l : Ledger) (p : Request × Time) (rest : List (Request × Time)) :
    l.run (p :: rest) = (CreateTransaction l p.1 p.2).1.run rest := rfl

/-- A property kept by every request holds after every sequence of requests. -/
theorem Ledger.run_induction (P : Ledger → Prop)
    (hstep : ∀ l r now, P l → P (CreateTransaction l r now).1)
    (l : Ledger) (h : P l) (reqs : List (Request × Time)) : P (l.run reqs) := by
  induction reqs generalizing l with
  | nil => exact h
  | cons p rest ih =>
    rw [Ledger.run_cons]
    exact ih _ (hstep l p.1 p.2 h)

/-- What a request does to the ledger: nothing, or `record` after the balance
update of a deposit or of a withdrawal. -/
theorem CreateTransaction_cases (l : Ledger) (r : Request) (now : Time) :
    (CreateTransaction l r now).1 = l ∨
    (∃ body, r = some body ∧ F64.le body.Amount F64.zero = false ∧
      (CreateTransaction l r now).1 =
        (record { l with Balance := F64.add l.Balance body.Amount } Deposit
          body.Amount now).1) ∨
    (∃ body, r = some body ∧ F64.le body.Amount F64.zero = false ∧
      F64.lt l.Balance body.Amount = false ∧
      (CreateTransaction l r now).1 =
        (record { l with Balance := F64.sub l.Balance body.Amount } Withdrawal
          body.Amount now).1) := by
  unfold CreateTransaction
  cases r with
  | none => simp
  | some body =>
    simp only
    split_ifs with h1 h2 h3 h4
    · simp
    · right; left
      exact ⟨body, rfl, by simpa using h1, rfl⟩
    · simp
    · right; right
      exact ⟨body, rfl, by simpa using h1, by simpa using h4, rfl⟩
    · simp

theorem wrapInt64_wrap_succ (z : Int) : wrapInt64 (wrapInt64 z + 1) = wrapInt64 (z + 1) := by
  unfold wrapInt64
  norm_num
  omega

theorem wrapInt64_of_small (z : Int) (hlo : -2 ^ 63 ≤ z) (hhi : z < 2 ^ 63) :
    wrapInt64 z = z := by
  unfold wrapInt64
  norm_num at hlo hhi ⊢
  omega

theorem record_sequential (l : Ledger) (b : F64) (ty : TransactionType) (a : F64) (now : Time)
    (h : l.Sequential) : (record { l with Balance := b } ty a now).1.Sequential := by
  obtain ⟨hids, hnext⟩ := h
  unfold Ledger.ids at hids
  constructor
  · simp only [record, Ledger.ids, idsUpTo, List.map_append, List.length_append,
      List.length_singleton, List.range_succ, List.map_cons, List.map_nil]
    rw [hids, hnext]
    simp [idsUpTo, List.range_succ]
  · simp only [record, List.length_append, List.length_singleton]
    rw [hnext, wrapInt64_wrap_succ]
    push_cast
    rfl

theorem CreateTransaction_sequential (l : Ledger) (r : Request) (now : Time)
    (h : l.Sequential) : (CreateTransaction l r now).1.Sequential := by
  rcases CreateTransaction_cases l r now with h0 | ⟨body, -, -, h1⟩ | ⟨body, -, -, -, h1⟩
  · rw [h0]; exact h
  · rw [h1]; exact record_sequential l _ _ _ _ h
  · rw [h1]; exact record_sequential l _ _ _ _ h

theorem NewLedger_sequential (id : UUID) : (NewLedger id).Sequential := by
  constructor
  · rfl
  · show (1 : Int) = wrapInt64 (((0 : Nat) : Int) + 1)
    decide

theorem idsUpTo_eq (n : Nat) (h : n < 2 ^ 63 - 1) :
    idsUpTo n = (List.range n).map (fun (i : Nat) => (i : Int) + 1) := by
  unfold idsUpTo
  apply List.map_congr_left
  intro i hi
  have hi' : i < n := List.mem_range.mp hi
  apply wrapInt64_of_small
  · have : (0 : Int) ≤ (i : Int) := Int.ofNat_nonneg i
    norm_num
    omega
  · norm_num at h ⊢
    omega

theorem pairwise_succ_range (n : Nat) :
    ((List.range n).map (fun (i : Nat) => (i : Int) + 1)).Pairwise (· < ·) := by
  rw [List.pairwise_map]
  refine (List.pairwise_lt_range n).imp ?_
  intro a b hab
  have : (a : Int) < (b : Int) := Int.ofNat_lt.mpr hab
  omega

/-- C4: after any sequence of requests on a new ledger the history carries the
IDs 1, 2, ... in order and `NextID` is the length of the history plus one, in
`int64` arithmetic; as long as the history has fewer than `2^63 - 1` entries the
`int64` counter has not wrapped, so the i-th entry (from 0) has ID `i + 1`, the
IDs are strictly increasing and unique, and `NextID = len + 1`, however many
requests were rejected. -/
theorem ids_sequential (id : UUID) (reqs : List (Request × Time)) :
    ((NewLedger id).run reqs).Sequential ∧
    (((NewLedger id).run reqs).TransactionHistory.length < 2 ^ 63 - 1 →
      ((NewLedger id).run reqs).NextID =
          (((NewLedger id).run reqs).TransactionHistory.length : Int) + 1 ∧
      (∀ (i : Nat) (h : i < ((NewLedger id).run reqs).TransactionHistory.length),
          (((NewLedger id).run reqs).TransactionHistory.get ⟨i, h⟩).ID = (i : Int) + 1) ∧
      ((NewLedger id).run reqs).ids.Pairwise (· < ·) ∧
      ((NewLedger id).run reqs).ids.Nodup) := by
  have hseq : ((NewLedger id).run reqs).Sequential :=
    Ledger.run_induction Ledger.Sequential CreateTransaction_sequential _
      (NewLedger_sequential id) reqs
  refine ⟨hseq, fun hlen => ?_⟩
  obtain ⟨hids, hnext⟩ := hseq
  rw [idsUpTo_eq _ hlen] at hids
  have hpw : ((NewLedger id).run reqs).ids.Pairwise (· < ·) := by
    rw [hids]; exact pairwise_succ_range _
  refine ⟨?_, ?_, hpw, ?_⟩
  · rw [hnext]
    apply wrapInt64_of_small
    · have : (0 : Int) ≤ (((NewLedger id).run reqs).TransactionHistory.length : Int) :=
        Int.ofNat_nonneg _
      norm_num
      omega
    · norm_num at hlen ⊢
      omega
  · intro i h
    have hget : ((NewLedger id).run reqs).ids.get ⟨i, by simpa [Ledger.ids] using h⟩ =
        (((NewLedger id).run reqs).TransactionHistory.get ⟨i, h⟩).ID := by
      simp [Ledger.ids]
    rw [← hget]
    simp [hids]
  · exact hpw.imp (fun hab => ne_of_lt hab)

theorem ids_sequential_witness :
    ((NewLedger 0).run
        [(mkRequest "deposit" 100 rfl, 1), (mkRequest "withdrawal" 500 rfl, 2),
         (none, 3), (mkRequest "withdrawal" 40 rfl, 4)]).TransactionHistory.length
      < 2 ^ 63 - 1 ∧
    ((NewLedger 0).run
        [(mkRequest "deposit" 100 rfl, 1), (mkRequest "withdrawal" 500 rfl, 2),
         (none, 3), (mkRequest "withdrawal" 40 rfl, 4)]).NextID = 3 ∧
    ((NewLedger 0).run
        [(mkRequest "deposit" 100 rfl, 1), (mkRequest "withdrawal" 500 rfl, 2),
         (none, 3), (mkRequest "withdrawal" 40 rfl, 4)]).ids = [1, 2] :=
  ⟨by decide,
   by
    have h := (ids_sequential 0
      [(mkRequest "deposit" 100 rfl, 1), (mkRequest "withdrawal" 500 rfl, 2),
       (none, 3), (mkRequest "withdrawal" 40 rfl, 4)]).2 (by decide)
    exact h.1.trans (by decide),
   by decide⟩

/-! ## The sign of rounded sums -/

theorem F64.scaled_nonneg (s : Bool) (m : Nat) (e e' : Int) :
    0 ≤ F64.scaled s m e e' ↔ 0 ≤ F64.sval s m := by
  unfold F64.scaled
  have hp : (0 : Int) < 2 ^ (e - min e e').toNat := by positivity
  constructor
  · intro h
    by_contra hneg
    have : F64.sval s m * 2 ^ (e - min e e').toNat < 0 :=
      mul_neg_of_neg_of_pos (not_le.mp hneg) hp
    omega
  · intro h
    exact mul_nonneg h hp.le

theorem F64.scaled_not (s : Bool) (m : Nat) (e e' : Int) :
    F64.scaled (!s) m e e' = -F64.scaled s m e e' := by
  cases s <;> simp [F64.scaled, F64.sval]

theorem F64.le_zero_finite (s : Bool) (m : Nat) (e : Int) :
    F64.le F64.zero (F64.finite s m e) = true ↔ 0 ≤ F64.sval s m := by
  simp only [F64.le, F64.zero, decide_eq_true_eq]
  rw [← F64.scaled_nonneg s m e 0]
  simp [F64.scaled, F64.sval]

theorem F64.le_zero_pack (m : Nat) (e : Int) :
    F64.le F64.zero (F64.pack false m e) = true := by
  unfold F64.pack
  split_ifs
  · rfl
  · rw [F64.le_zero_finite]
    simp [F64.sval]

theorem F64.le_zero_roundNat (n : Nat) (e0 : Int) :
    F64.le F64.zero (F64.roundNat false n e0) = true := by
  unfold F64.roundNat
  simp only
  split_ifs <;> exact F64.le_zero_pack _ _

theorem F64.le_zero_roundInt (v e0 : Int) (z : Bool) (h : 0 ≤ v) :
    F64.le F64.zero (F64.roundInt v e0 z) = true := by
  unfold F64.roundInt
  split_ifs with h0 hneg
  · rw [F64.le_zero_finite]
    cases z <;> simp [F64.sval]
  · omega
  · exact F64.le_zero_roundNat _ _

/-- Adding a finite amount that is not `<= 0` to a balance `>= 0` gives a
balance `>= 0`. -/
theorem F64.add_nonneg (b a : F64) (hb : F64.le F64.zero b = true)
    (hfin : a.isFinite = true) (ha : F64.le a F64.zero = false) :
    F64.le F64.zero (F64.add b a) = true := by
  cases a with
  | nan => simp [F64.isFinite] at hfin
  | inf t => simp [F64.isFinite] at hfin
  | finite t n f =>
    cases b with
    | nan => simp [F64.le, F64.zero] at hb
    | inf s =>
      have hs : s = false := by simpa [F64.le, F64.zero] using hb
      subst hs
      rfl
    | finite s m e =>
      simp only [F64.add]
      apply F64.le_zero_roundInt
      have h1 : 0 ≤ F64.scaled s m e f :=
        (F64.scaled_nonneg s m e f).mpr ((F64.le_zero_finite s m e).mp hb)
      have h2 : 0 ≤ F64.scaled t n f e := by
        rw [F64.scaled_nonneg]
        simp only [F64.le, F64.zero, decide_eq_false_iff_not, not_le] at ha
        have h3 : 0 ≤ F64.scaled t n f 0 := by
          have : F64.scaled false 0 0 f = 0 := by simp [F64.scaled, F64.sval]
          omega
        exact (F64.scaled_nonneg t n f 0).mp h3
      omega

/-- Subtracting a finite amount from a balance `>= 0` that is not below the
amount gives a balance `>= 0`. -/
theorem F64.sub_nonneg (b a : F64) (hb : F64.le F64.zero b = true)
    (hfin : a.isFinite = true) (hlt : F64.lt b a = false) :
    F64.le F64.zero (F64.sub b a) = true := by
  cases a with
  | nan => simp [F64.isFinite] at hfin
  | inf t => simp [F64.isFinite] at hfin
  | finite t n f =>
    cases b with
    | nan => simp [F64.le, F64.zero] at hb
    | inf s =>
      have hs : s = false := by simpa [F64.le, F64.zero] using hb
      subst hs
      rfl
    | finite s m e =>
      simp only [F64.sub, F64.neg, F64.add]
      apply F64.le_zero_roundInt
      rw [F64.scaled_not]
      simp only [F64.lt, decide_eq_false_iff_not, not_lt] at hlt
      omega

/-- A balance `>= 0` stays `>= 0` over one request. -/
theorem CreateTransaction_balance_nonneg (l : Ledger) (r : Request) (now : Time)
    (h : F64.le F64.zero l.Balance = true) :
    F64.le F64.zero (CreateTransaction l r now).1.Balance = true := by
  rcases CreateTransaction_cases l r now with
    h0 | ⟨body, -, hpos, h1⟩ | ⟨body, -, -, hge, h1⟩
  · rw [h0]; exact h
  · rw [h1]; exact F64.add_nonneg _ _ h body.finite hpos
  · rw [h1]; exact F64.sub_nonneg _ _ h body.finite hge

/-- C2: the balance is never negative. After any sequence of requests on a new
ledger `Balance >= 0`; and if `Balance >= 0` before a request then
`Balance >= 0` after it, whatever the request. -/
theorem balance_never_negative :
    (∀ (id : UUID) (reqs : List (Request × Time)),
      F64.le F64.zero ((NewLedger id).run reqs).Balance = true) ∧
    (∀ (l : Ledger) (r : Request) (now : Time),
      F64.le F64.zero l.Balance = true →
      F64.le F64.zero (CreateTransaction l r now).1.Balance = true) :=
  ⟨fun id reqs =>
     Ledger.run_induction (fun l => F64.le F64.zero l.Balance = true)
       CreateTransaction_balance_nonneg (NewLedger id) rfl reqs,
   CreateTransaction_balance_nonneg⟩

theorem balance_never_negative_witness :
    F64.le F64.zero ({ NewLedger 0 with Balance := F64.ofNat 200 } : Ledger).Balance = true ∧
    F64.le F64.zero
      (CreateTransaction { NewLedger 0 with Balance := F64.ofNat 200 }
        (mkRequest "withdrawal" 200 rfl) 3).1.Balance = true ∧
    (CreateTransaction { NewLedger 0 with Balance := F64.ofNat 200 }
        (mkRequest "withdrawal" 200 rfl) 3).1.Balance = F64.zero :=
  ⟨by decide,
   balance_never_negative.2 { NewLedger 0 with Balance := F64.ofNat 200 }
     (mkRequest "withdrawal" 200 rfl) 3 (by decide),
   by decide⟩

/-! ## Balance and history -/

set_option maxRecDepth 8000 in
/-- C1, as stated, fails: after deposits of 9007199254740992 and of 1 on a new
ledger the balance is 9007199254740992, the exact sum of the history is
9007199254740993. -/
theorem balance_exact_sum_counterexample :
    ((NewLedger 0).run
        [(mkRequest "deposit" (2 ^ 53) (by decide), 1),
         (mkRequest "deposit" 1 (by decide), 2)]).Balance.toRat? = some (2 ^ 53) ∧
    exactTotal Deposit ((NewLedger 0).run
        [(mkRequest "deposit" (2 ^ 53) (by decide), 1),
         (mkRequest "deposit" 1 (by decide), 2)]).TransactionHistory = 2 ^ 53 + 1 ∧
    exactTotal Withdrawal ((NewLedger 0).run
        [(mkRequest "deposit" (2 ^ 53) (by decide), 1),
         (mkRequest "deposit" 1 (by decide), 2)]).TransactionHistory = 0 ∧
    ¬ ((NewLedger 0).run
        [(mkRequest "deposit" (2 ^ 53) (by decide), 1),
         (mkRequest "deposit" 1 (by decide), 2)]).BalanceIsExactSum := by
  have hrun : (NewLedger 0).run
        [(mkRequest "deposit" (2 ^ 53) (by decide), 1),
         (mkRequest "deposit" 1 (by decide), 2)] =
      { ID := 0,
        TransactionHistory :=
          [{ ID := 1, Type_ := Deposit, Amount := F64.finite false (2 ^ 52) 1,
             Timestamp := 1 },
           { ID := 2, Type_ := Deposit, Amount := F64.finite false (2 ^ 52) (-52),
             Timestamp := 2 }],
        Balance := F64.finite false (2 ^ 52) 1,
        NextID := 3 } := by
    decide
  have hD : (Deposit = Deposit) = True := by simp
  have hW : (Deposit = Withdrawal) = False := by
    have : ¬ Deposit = Withdrawal := by decide
    simpa using this
  rw [hrun]
  refine ⟨?_, ?_, ?_, ?_⟩
  · simp only [F64.toRat?, F64.sval]
    norm_num
  · simp only [exactTotal, hD, List.filter, decide_True, List.map, List.sum_cons,
      List.sum_nil, Transaction.exactAmount, F64.toRat?, F64.sval, Option.getD]
    norm_num
  · simp only [exactTotal, hW, List.filter, decide_False, List.map, List.sum_nil]
  · simp only [Ledger.BalanceIsExactSum, exactTotal, hD, hW, List.filter, decide_True,
      decide_False, List.map, List.sum_cons, List.sum_nil, Transaction.exactAmount,
      F64.toRat?, F64.sval, Option.getD]
    norm_num

theorem replay_append (hist : List Transaction) (tx : Transaction) :
    replay (hist ++ [tx]) = applyEntry (replay hist) tx := by
  simp [replay, List.foldl_append]

/-- The balance is the replay of the history, kept by every request. -/
theorem CreateTransaction_replay (l : Ledger) (r : Request) (now : Time)
    (h : l.Balance = replay l.TransactionHistory) :
    (CreateTransaction l r now).1.Balance =
      replay (CreateTransaction l r now).1.TransactionHistory := by
  have hne : ¬ Withdrawal = Deposit := by decide
  rcases CreateTransaction_cases l r now with h0 | ⟨body, -, -, h1⟩ | ⟨body, -, -, -, h1⟩
  · rw [h0]; exact h
  · rw [h1]
    simp only [record, replay_append, applyEntry, if_true, h]
  · rw [h1]
    simp only [record, replay_append, applyEntry, hne, if_false, if_true, h]

theorem balance_eq_replay (id : UUID) (reqs : List (Request × Time)) :
    ((NewLedger id).run reqs).Balance = replay ((NewLedger id).run reqs).TransactionHistory :=
  Ledger.run_induction (fun l => l.Balance = replay l.TransactionHistory)
    CreateTransaction_replay (NewLedger id) rfl reqs

/-! ## Whole numbers below `2^53` are computed exactly -/

theorem F64.bitLenAux_zero (fuel : Nat) : F64.bitLenAux fuel 0 = 0 := by
  cases fuel <;> simp [F64.bitLenAux]

theorem F64.bitLenAux_eq (fuel n : Nat) (h : n ≤ fuel) (hn : 0 < n) :
    F64.bitLenAux fuel n = Nat.log 2 n + 1 := by
  induction fuel generalizing n with
  | zero => omega
  | succ fuel ih =>
    have hn0 : n ≠ 0 := by omega
    simp only [F64.bitLenAux, hn0, if_false]
    rcases Nat.lt_or_ge n 2 with h2 | h2
    · have h1 : n = 1 := by omega
      subst h1
      simp [F64.bitLenAux_zero]
    · rw [ih (n / 2) (by omega) (by omega), Nat.log_of_one_lt_of_le (by norm_num) h2]

theorem F64.bitLen_eq (n : Nat) (hn : 0 < n) : F64.bitLen n = Nat.log 2 n + 1 :=
  F64.bitLenAux_eq n n le_rfl hn

theorem F64.log_mul_pow (n K : Nat) (hn : 0 < n) :
    Nat.log 2 (n * 2 ^ K) = Nat.log 2 n + K := by
  induction K with
  | zero => simp
  | succ K ih =>
    have hpos : n * 2 ^ K ≠ 0 := by positivity
    rw [pow_succ, ← mul_assoc, Nat.log_mul_base (by norm_num) hpos, ih]
    omega

/-- Rounding is exact on `n * 2^K * 2^(-K)` for a whole number `0 < n < 2^53`,
and gives the normalised significand and exponent of `n`. -/
theorem F64.roundNat_whole (s : Bool) (n K : Nat) (hn : 0 < n) (hlt : n < 2 ^ 53) :
    F64.roundNat s (n * 2 ^ K) (-(K : Int)) =
      F64.finite s (n * 2 ^ (52 - Nat.log 2 n)) (-((52 - Nat.log 2 n : Nat) : Int)) := by
  have hL : Nat.log 2 n < 53 := Nat.log_lt_of_lt_pow (by omega) hlt
  have hnK : 0 < n * 2 ^ K := by positivity
  have hbits : F64.bitLen (n * 2 ^ K) = Nat.log 2 n + K + 1 := by
    rw [F64.bitLen_eq _ hnK, F64.log_mul_pow n K hn]
  have hupper : n * 2 ^ (52 - Nat.log 2 n) < 2 ^ 53 := by
    have h1 : n < 2 ^ (Nat.log 2 n + 1) := Nat.lt_pow_succ_log_self (by norm_num) n
    calc n * 2 ^ (52 - Nat.log 2 n)
        < 2 ^ (Nat.log 2 n + 1) * 2 ^ (52 - Nat.log 2 n) :=
          Nat.mul_lt_mul_of_pos_right h1 (by positivity)
      _ = 2 ^ 53 := by rw [← pow_add]; congr 1; omega
  generalize hj : 52 - Nat.log 2 n = j at hupper ⊢
  have he : max (-(K : Int) + ((F64.bitLen (n * 2 ^ K) : Nat) : Int) - 53) (-1074) =
      -(j : Int) := by
    rw [hbits]
    push_cast
    omega
  unfold F64.roundNat
  simp only [he]
  by_cases h1 : -(j : Int) ≤ -(K : Int)
  · -- no bit is dropped
    rw [if_pos h1]
    have hK : K ≤ j := by omega
    have hexp : (-(K : Int) - -(j : Int)).toNat = j - K := by omega
    rw [hexp, mul_assoc, ← pow_add]
    have : K + (j - K) = j := by omega
    rw [this]
    unfold F64.pack
    rw [if_neg (by omega)]
  · -- the dropped bits are all zero
    rw [if_neg h1]
    have hK : j < K := by omega
    have hexp : (-(j : Int) - -(K : Int)).toNat = K - j := by omega
    have hsplit : n * 2 ^ K = n * 2 ^ j * 2 ^ (K - j) := by
      rw [mul_assoc, ← pow_add]; congr 2; omega
    have hpos : 0 < 2 ^ (K - j) := by positivity
    have hq : n * 2 ^ K / 2 ^ (K - j) = n * 2 ^ j := by
      rw [hsplit]; exact Nat.mul_div_cancel _ hpos
    have hr : n * 2 ^ K % 2 ^ (K - j) = 0 := by
      rw [hsplit]; exact Nat.mul_mod_left _ _
    have hhalf : 0 < 2 ^ (K - j - 1) := by positivity
    have hcond : ¬ (2 ^ (K - j - 1) < 0 ∨ (0 = 2 ^ (K - j - 1) ∧ n * 2 ^ j % 2 = 1)) := by
      rintro (h | ⟨h, -⟩) <;> omega
    simp only [hexp, hq, hr]
    rw [if_neg hcond, if_neg (ne_of_lt hupper)]
    unfold F64.pack
    rw [if_neg (by omega)]

theorem F64.roundInt_whole (n K : Nat) (hn : 0 < n) (hlt : n < 2 ^ 53) (z : Bool) :
    F64.roundInt (((n * 2 ^ K : Nat) : Int)) (-(K : Int)) z =
      F64.finite false (n * 2 ^ (52 - Nat.log 2 n)) (-((52 - Nat.log 2 n : Nat) : Int)) := by
  have hpos : 0 < n * 2 ^ K := by positivity
  unfold F64.roundInt
  rw [if_neg (by omega), if_neg (by omega), Int.natAbs_ofNat]
  exact F64.roundNat_whole false n K hn hlt

theorem F64.ofNat_pos_eq (n : Nat) (hn : 0 < n) (hlt : n < 2 ^ 53) :
    F64.ofNat n =
      F64.finite false (n * 2 ^ (52 - Nat.log 2 n)) (-((52 - Nat.log 2 n : Nat) : Int)) := by
  have h := F64.roundInt_whole n 0 hn hlt false
  simpa [F64.ofNat] using h

theorem F64.ofNat_represents (n : Nat) (hlt : n < 2 ^ 53) : (F64.ofNat n).Represents n := by
  rcases Nat.eq_zero_or_pos n with h0 | hn
  · subst h0
    exact ⟨0, by decide⟩
  · exact ⟨52 - Nat.log 2 n, F64.ofNat_pos_eq n hn hlt⟩

theorem F64.roundInt_whole_eq_ofNat (n K : Nat) (hlt : n < 2 ^ 53) :
    F64.roundInt (((n * 2 ^ K : Nat) : Int)) (-(K : Int)) false = F64.ofNat n := by
  rcases Nat.eq_zero_or_pos n with h0 | hn
  · subst h0
    simp [F64.roundInt, F64.ofNat]
  · rw [F64.roundInt_whole n K hn hlt, F64.ofNat_pos_eq n hn hlt]

theorem F64.scaled_represents (s : Bool) (a Ka Kb : Nat) :
    F64.scaled s (a * 2 ^ Ka) (-(Ka : Int)) (-(Kb : Int)) =
      F64.sval s (a * 2 ^ max Ka Kb) := by
  have hexp : (-(Ka : Int) - min (-(Ka : Int)) (-(Kb : Int))).toNat = max Ka Kb - Ka := by
    omega
  have hsplit : a * 2 ^ max Ka Kb = a * 2 ^ Ka * 2 ^ (max Ka Kb - Ka) := by
    rw [mul_assoc, ← pow_add]; congr 2; omega
  unfold F64.scaled
  rw [hexp, hsplit]
  cases s <;> simp [F64.sval]

theorem F64.min_neg_neg (Ka Kb : Nat) :
    min (-(Ka : Int)) (-(Kb : Int)) = -((max Ka Kb : Nat) : Int) := by
  omega

/-- Whole numbers add exactly while the sum stays below `2^53`. -/
theorem F64.add_represents (x y : F64) (a b : Nat) (hx : x.Represents a)
    (hy : y.Represents b) (hlt : a + b < 2 ^ 53) : F64.add x y = F64.ofNat (a + b) := by
  obtain ⟨Ka, rfl⟩ := hx
  obtain ⟨Kb, rfl⟩ := hy
  simp only [F64.add, F64.scaled_represents]
  rw [max_comm Kb Ka, F64.min_neg_neg]
  have hv : F64.sval false (a * 2 ^ max Ka Kb) + F64.sval false (b * 2 ^ max Ka Kb) =
      (((a + b) * 2 ^ max Ka Kb : Nat) : Int) := by
    simp only [F64.sval]
    push_cast
    ring
  rw [hv]
  exact F64.roundInt_whole_eq_ofNat (a + b) _ hlt

/-- Whole numbers subtract exactly. -/
theorem F64.sub_represents (x y : F64) (a b : Nat) (hx : x.Represents a)
    (hy : y.Represents b) (hba : b ≤ a) (hlt : a < 2 ^ 53) :
    F64.sub x y = F64.ofNat (a - b) := by
  obtain ⟨Ka, rfl⟩ := hx
  obtain ⟨Kb, rfl⟩ := hy
  simp only [F64.sub, F64.neg, F64.add, F64.scaled_represents]
  rw [max_comm Kb Ka, F64.min_neg_neg]
  simp only [Bool.not_false, Bool.and_true]
  have hv : F64.sval false (a * 2 ^ max Ka Kb) + F64.sval true (b * 2 ^ max Ka Kb) =
      (((a - b) * 2 ^ max Ka Kb : Nat) : Int) := by
    simp only [F64.sval]
    rw [Nat.sub_mul]
    have : b * 2 ^ max Ka Kb ≤ a * 2 ^ max Ka Kb := Nat.mul_le_mul_right _ hba
    push_cast [this]
    ring
  rw [hv]
  exact F64.roundInt_whole_eq_ofNat (a - b) _ (by omega)

/-- Whole numbers compare as numbers. -/
theorem F64.lt_represents (x y : F64) (a b : Nat) (hx : x.Represents a)
    (hy : y.Represents b) : F64.lt x y = decide (a < b) := by
  obtain ⟨Ka, rfl⟩ := hx
  obtain ⟨Kb, rfl⟩ := hy
  simp only [F64.lt, F64.scaled_represents]
  rw [max_comm Kb Ka]
  have hpos : 0 < 2 ^ max Ka Kb := by positivity
  simp only [F64.sval, Bool.false_eq_true, if_false]
  congr 1
  rw [eq_iff_iff]
  constructor
  · intro h
    have h' : a * 2 ^ max Ka Kb < b * 2 ^ max Ka Kb := by exact_mod_cast h
    exact Nat.lt_of_mul_lt_mul_right h'
  · intro h
    have h' : a * 2 ^ max Ka Kb < b * 2 ^ max Ka Kb := Nat.mul_lt_mul_of_pos_right h hpos
    exact_mod_cast h'

/-- The exact value of a whole number. -/
theorem F64.toRat_represents (x : F64) (n : Nat) (hx : x.Represents n) :
    x.toRat? = some (n : ℚ) := by
  obtain ⟨K, rfl⟩ := hx
  simp only [F64.toRat?, F64.sval]
  congr 1
  push_cast
  rw [zpow_neg, zpow_natCast]
  field_simp

theorem Ledger.run_append (l : Ledger) (reqs : List (Request × Time)) (p : Request × Time) :
    l.run (reqs ++ [p]) = (CreateTransaction (l.run reqs) p.1 p.2).1 := by
  simp [Ledger.run, List.foldl_append]

theorem exactTotal_append (ty : TransactionType) (hist : List Transaction) (tx : Transaction) :
    exactTotal ty (hist ++ [tx]) =
      exactTotal ty hist + (if tx.Type_ = ty then tx.exactAmount else 0) := by
  unfold exactTotal
  rw [List.filter_append, List.map_append, List.sum_append]
  congr 1
  by_cases h : tx.Type_ = ty
  · simp [List.filter, h]
  · simp [List.filter, h]

theorem exactAmount_of_whole (tx : Transaction) (n : Nat) (hn : n < 2 ^ 53)
    (h : tx.Amount = F64.ofNat n) : tx.exactAmount = (n : ℚ) := by
  unfold Transaction.exactAmount
  rw [h, F64.toRat_represents _ n (F64.ofNat_represents n hn)]
  rfl

theorem exactTotal_nonneg (ty : TransactionType) (hist : List Transaction)
    (h : ∀ tx ∈ hist, tx.Amount.IsWhole) : 0 ≤ exactTotal ty hist := by
  unfold exactTotal
  apply List.sum_nonneg
  intro q hq
  obtain ⟨tx, htx, rfl⟩ := List.mem_map.mp hq
  obtain ⟨n, hn, hamt⟩ := h tx (List.mem_of_mem_filter htx)
  rw [exactAmount_of_whole tx n hn hamt]
  exact Nat.cast_nonneg n

/-- With whole amounts and deposits totalling less than `2^53` the balance is a
whole number, the exact sum of the history. -/
theorem whole_balance (id : UUID) (reqs : List (Request × Time)) :
    (∀ tx ∈ ((NewLedger id).run reqs).TransactionHistory, tx.Amount.IsWhole) →
    exactTotal Deposit ((NewLedger id).run reqs).TransactionHistory < 2 ^ 53 →
    ∃ k : Nat, ((NewLedger id).run reqs).Balance = F64.ofNat k ∧
      (k : ℚ) = exactTotal Deposit ((NewLedger id).run reqs).TransactionHistory -
        exactTotal Withdrawal ((NewLedger id).run reqs).TransactionHistory := by
  have hne : ¬ Withdrawal = Deposit := by decide
  have hne' : ¬ Deposit = Withdrawal := by decide
  induction reqs using List.reverseRecOn with
  | nil =>
    intro _ _
    have h0 : F64.zero = F64.ofNat 0 := by decide
    exact ⟨0, h0, by simp [Ledger.run_nil, NewLedger, exactTotal]⟩
  | append_singleton init p ih =>
    rw [Ledger.run_append]
    intro hwhole hbound
    rcases CreateTransaction_cases ((NewLedger id).run init) p.1 p.2 with
      h0 | ⟨body, -, -, h1⟩ | ⟨body, -, -, hge, h1⟩
    · rw [h0] at hwhole hbound ⊢
      exact ih hwhole hbound
    · rw [h1] at hwhole hbound ⊢
      simp only [record] at hwhole hbound ⊢
      have hprev : ∀ tx ∈ ((NewLedger id).run init).TransactionHistory, tx.Amount.IsWhole :=
        fun tx htx => hwhole tx (List.mem_append_left _ htx)
      obtain ⟨n, hn, hamt⟩ := hwhole _ (List.mem_append_right _ (List.mem_singleton_self _))
      simp only at hamt
      have hW := exactTotal_nonneg Withdrawal _ hprev
      rw [exactTotal_append] at hbound ⊢
      rw [exactTotal_append]
      simp only [if_true, hne', if_false, add_zero] at hbound ⊢
      rw [exactAmount_of_whole _ n hn hamt] at hbound ⊢
      have hD : exactTotal Deposit ((NewLedger id).run init).TransactionHistory < 2 ^ 53 := by
        have : (0 : ℚ) ≤ (n : ℚ) := Nat.cast_nonneg n
        linarith
      obtain ⟨k, hk, hkq⟩ := ih hprev hD
      have hsum : k + n < 2 ^ 53 := by
        have : ((k + n : Nat) : ℚ) < ((2 ^ 53 : Nat) : ℚ) := by
          push_cast
          linarith
        exact_mod_cast this
      refine ⟨k + n, ?_, ?_⟩
      · rw [hk, hamt]
        exact F64.add_represents _ _ k n (F64.ofNat_represents k (by omega))
          (F64.ofNat_represents n hn) hsum
      · push_cast
        linarith
    · rw [h1] at hwhole hbound ⊢
      simp only [record] at hwhole hbound ⊢
      have hprev : ∀ tx ∈ ((NewLedger id).run init).TransactionHistory, tx.Amount.IsWhole :=
        fun tx htx => hwhole tx (List.mem_append_left _ htx)
      obtain ⟨n, hn, hamt⟩ := hwhole _ (List.mem_append_right _ (List.mem_singleton_self _))
      simp only at hamt
      have hW := exactTotal_nonneg Withdrawal _ hprev
      rw [exactTotal_append] at hbound ⊢
      rw [exactTotal_append]
      simp only [if_true, hne, if_false, add_zero] at hbound ⊢
      rw [exactAmount_of_whole _ n hn hamt]
      obtain ⟨k, hk, hkq⟩ := ih hprev hbound
      have hk53 : k < 2 ^ 53 := by
        have : ((k : Nat) : ℚ) < ((2 ^ 53 : Nat) : ℚ) := by
          push_cast
          linarith
        exact_mod_cast this
      have hnk : n ≤ k := by
        rw [hk, hamt, F64.lt_represents _ _ k n (F64.ofNat_represents k hk53)
          (F64.ofNat_represents n hn)] at hge
        simpa using hge
      refine ⟨k - n, ?_, ?_⟩
      · rw [hk, hamt]
        exact F64.sub_represents _ _ k n (F64.ofNat_represents k hk53)
          (F64.ofNat_represents n hn) hnk hk53
      · rw [Nat.cast_sub hnk]
        linarith

/-- C1 (amended): after any sequence of requests on a new ledger the balance is
the history replayed from 0.00 in order, a deposit adding and a withdrawal
subtracting its amount in `float64` arithmetic; when the amounts of the history
are whole numbers and the deposits total less than `2^53`, no step rounds and the
balance is the exact sum of the deposit amounts minus the exact sum of the
withdrawal amounts. -/
theorem balance_replays_history (id : UUID) (reqs : List (Request × Time)) :
    ((NewLedger id).run reqs).Balance = replay ((NewLedger id).run reqs).TransactionHistory ∧
    ((∀ tx ∈ ((NewLedger id).run reqs).TransactionHistory, tx.Amount.IsWhole) →
      exactTotal Deposit ((NewLedger id).run reqs).TransactionHistory < 2 ^ 53 →
      ((NewLedger id).run reqs).BalanceIsExactSum) := by
  refine ⟨balance_eq_replay id reqs, fun hwhole hbound => ?_⟩
  obtain ⟨k, hk, hkq⟩ := whole_balance id reqs hwhole hbound
  have hW := exactTotal_nonneg Withdrawal _ hwhole
  have hk53 : k < 2 ^ 53 := by
    have : ((k : Nat) : ℚ) < ((2 ^ 53 : Nat) : ℚ) := by
      push_cast
      linarith
    exact_mod_cast this
  unfold Ledger.BalanceIsExactSum
  rw [hk, F64.toRat_represents _ k (F64.ofNat_represents k hk53), hkq]

theorem balance_replays_history_witness :
    ((NewLedger 0).run
        [(mkRequest "deposit" 100 rfl, 1), (mkRequest "withdrawal" 30 rfl, 2),
         (mkRequest "withdrawal" 500 rfl, 3)]).Balance = F64.ofNat 70 ∧
    ((NewLedger 0).run
        [(mkRequest "deposit" 100 rfl, 1), (mkRequest "withdrawal" 30 rfl, 2),
         (mkRequest "withdrawal" 500 rfl, 3)]).BalanceIsExactSum := by
  have hh : ((NewLedger 0).run
        [(mkRequest "deposit" 100 rfl, 1), (mkRequest "withdrawal" 30 rfl, 2),
         (mkRequest "withdrawal" 500 rfl, 3)]).TransactionHistory =
      [{ ID := 1, Type_ := Deposit, Amount := F64.ofNat 100, Timestamp := 1 },
       { ID := 2, Type_ := Withdrawal, Amount := F64.ofNat 30, Timestamp := 2 }] := by
    decide
  refine ⟨by decide, (balance_replays_history 0 _).2 ?_ ?_⟩
  · intro tx htx
    rw [hh] at htx
    simp only [List.mem_cons, List.mem_singleton, List.not_mem_nil, or_false] at htx
    rcases htx with rfl | rfl
    · exact ⟨100, by norm_num, rfl⟩
    · exact ⟨30, by norm_num, rfl⟩
  · rw [hh]
    have hW : (Withdrawal = Deposit) = False := by
      have : ¬ Withdrawal = Deposit := by decide
      simpa using this
    have h100 : F64.ofNat 100 = F64.finite false 7036874417766400 (-46) := by decide
    simp only [exactTotal, List.filter, hW, decide_True, decide_False, List.map,
      List.sum_cons, List.sum_nil, Transaction.exactAmount, h100, F64.toRat?, F64.sval,
      Option.getD]
    norm_num

/-! ## Requests of one fixed withdrawal -/

/-- A withdrawal of a positive amount is refused when the balance is below the
amount and recorded otherwise. -/
theorem CreateTransaction_withdrawal (l : Ledger) (body : Body) (now : Time)
    (hty : body.Type_ = Withdrawal) (hpos : F64.lt F64.zero body.Amount = true) :
    CreateTransaction l (some body) now =
      if F64.lt l.Balance body.Amount = true then
        (l, writeError StatusBadRequest "insufficient_funds"
              "Not enough balance to complete withdrawal")
      else
        record { l with Balance := F64.sub l.Balance body.Amount } Withdrawal body.Amount now := by
  have hne : ¬ Withdrawal = Deposit := by decide
  simp [CreateTransaction, F64.not_le_zero_of_pos _ hpos, hty, hne]

theorem Ledger.responses_cons (l : Ledger) (p : Request × Time) (rest : List (Request × Time)) :
    l.responses (p :: rest) =
      (CreateTransaction l p.1 p.2).2 :: (CreateTransaction l p.1 p.2).1.responses rest := rfl

theorem countCreated_cons (r : Response) (rs : List Response) :
    countCreated (r :: rs) = countCreated rs + (if r.status = StatusCreated then 1 else 0) := by
  simp [countCreated, List.countP_cons]

/-- The final balance is the starting balance after one `float64` subtraction of
the amount per request answered 201. -/
theorem sameRequests_balance (body : Body) (hty : body.Type_ = Withdrawal)
    (hpos : F64.lt F64.zero body.Amount = true) (times : List Time) (l : Ledger) :
    (l.run (sameRequests body times)).Balance =
      (fun b => F64.sub b body.Amount)^[countCreated (l.responses (sameRequests body times))]
        l.Balance := by
  induction times generalizing l with
  | nil => rfl
  | cons t rest ih =>
    simp only [sameRequests, List.map_cons, Ledger.run_cons, Ledger.responses_cons,
      countCreated_cons]
    rw [CreateTransaction_withdrawal l body t hty hpos]
    by_cases h : F64.lt l.Balance body.Amount = true
    · rw [if_pos h]
      have := ih l
      simp only [sameRequests] at this
      simp [this, writeError, StatusBadRequest, StatusCreated]
    · rw [if_neg h]
      have := ih (record { l with Balance := F64.sub l.Balance body.Amount } Withdrawal
        body.Amount t).1
      simp only [sameRequests] at this
      rw [this]
      simp [record, Function.iterate_succ_apply]

/-- With a whole balance and a whole amount every accepted withdrawal is exact,
so the accepted withdrawals together are at most the starting balance. -/
theorem sameRequests_whole (body : Body) (hty : body.Type_ = Withdrawal)
    (hpos : F64.lt F64.zero body.Amount = true) (a : Nat) (ha : a < 2 ^ 53)
    (hamt : body.Amount = F64.ofNat a) (times : List Time) (l : Ledger) (B : Nat)
    (hB : B < 2 ^ 53) (hbal : l.Balance = F64.ofNat B) :
    countCreated (l.responses (sameRequests body times)) * a ≤ B := by
  induction times generalizing l B with
  | nil => simp [sameRequests, Ledger.responses, countCreated]
  | cons t rest ih =>
    simp only [sameRequests, List.map_cons, Ledger.responses_cons, countCreated_cons]
    rw [CreateTransaction_withdrawal l body t hty hpos]
    have hlt : F64.lt l.Balance body.Amount = decide (B < a) := by
      rw [hbal, hamt]
      exact F64.lt_represents _ _ B a (F64.ofNat_represents B hB) (F64.ofNat_represents a ha)
    by_cases h : B < a
    · have h' : F64.lt l.Balance body.Amount = true := by rw [hlt]; simpa using h
      rw [if_pos h']
      have := ih l B hB hbal
      simp only [sameRequests] at this
      simpa [writeError, StatusBadRequest, StatusCreated] using this
    · have h' : ¬ F64.lt l.Balance body.Amount = true := by rw [hlt]; simpa using h
      rw [if_neg h']
      have hsub : F64.sub l.Balance body.Amount = F64.ofNat (B - a) := by
        rw [hbal, hamt]
        exact F64.sub_represents _ _ B a (F64.ofNat_represents B hB)
          (F64.ofNat_represents a ha) (by omega) hB
      have := ih (record { l with Balance := F64.sub l.Balance body.Amount } Withdrawal
        body.Amount t).1 (B - a) (by omega) (by simpa [record] using hsub)
      simp only [sameRequests] at this
      simp only [record, if_true] at this ⊢
      have hmul : (countCreated
          (Ledger.responses
            { ID := l.ID,
              TransactionHistory := l.TransactionHistory ++
                [{ ID := l.NextID, Type_ := Withdrawal, Amount := body.Amount, Timestamp := t }],
              Balance := F64.sub l.Balance body.Amount,
              NextID := wrapInt64 (l.NextID + 1) }
            (List.map (fun t => (some body, t)) rest)) + 1) * a ≤ B := by
        rw [Nat.add_mul]
        omega
      exact hmul

set_option maxRecDepth 8000 in
/-- C10, as stated, fails: from a balance of 0.3, six withdrawals of 0.05 served
one after the other are all answered 201 and leave a balance `>= 0`, while six
times 0.05 is more than 0.3 (as exact numbers: 0.05 is
7205759403792794 / 2^57 and 0.3 is 5404319552844595 / 2^54). -/
theorem concurrent_withdrawals_counterexample :
    F64.lt F64.zero (F64.finite false 7205759403792794 (-57)) = true ∧
    F64.le F64.zero (F64.finite false 5404319552844595 (-54)) = true ∧
    (({ NewLedger 0 with Balance := F64.finite false 5404319552844595 (-54) } : Ledger).responses
        (sameRequests ⟨"withdrawal", F64.finite false 7205759403792794 (-57), rfl⟩
          [1, 2, 3, 4, 5, 6])).map Response.status = [201, 201, 201, 201, 201, 201] ∧
    F64.le F64.zero
      (({ NewLedger 0 with Balance := F64.finite false 5404319552844595 (-54) } : Ledger).run
        (sameRequests ⟨"withdrawal", F64.finite false 7205759403792794 (-57), rfl⟩
          [1, 2, 3, 4, 5, 6])).Balance = true ∧
    ¬ SuccessesWithinBalance
        { NewLedger 0 with Balance := F64.finite false 5404319552844595 (-54) }
        ⟨"withdrawal", F64.finite false 7205759403792794 (-57), rfl⟩ [1, 2, 3, 4, 5, 6] := by
  have hcount : countCreated
      (({ NewLedger 0 with Balance := F64.finite false 5404319552844595 (-54) } : Ledger).responses
        (sameRequests ⟨"withdrawal", F64.finite false 7205759403792794 (-57), rfl⟩
          [1, 2, 3, 4, 5, 6])) = 6 := by
    decide
  refine ⟨by decide, by decide, by decide, by decide, ?_⟩
  unfold SuccessesWithinBalance
  rw [hcount]
  simp only [NewLedger, F64.exact, F64.toRat?, F64.sval, Option.getD]
  norm_num

/-- C10 (amended): requests of one fixed withdrawal of amount `a > 0`, served one
after the other in any order of arrival (each call is indivisible under `l.mu`)
on a ledger with starting balance `B >= 0`, leave a balance `>= 0`; the final
balance is `B` after one `float64` subtraction of `a` per request answered 201;
and when `B` and `a` are whole numbers below `2^53`, the number of requests
answered 201 times `a` is at most `B`. -/
theorem concurrent_withdrawals_serialised (l : Ledger) (body : Body) (times : List Time)
    (hty : body.Type_ = Withdrawal)
    (hpos : F64.lt F64.zero body.Amount = true)
    (hB : F64.le F64.zero l.Balance = true) :
    F64.le F64.zero (l.run (sameRequests body times)).Balance = true ∧
    (l.run (sameRequests body times)).Balance =
      (fun b => F64.sub b body.Amount)^[countCreated (l.responses (sameRequests body times))]
        l.Balance ∧
    (l.Balance.IsWhole → body.Amount.IsWhole → SuccessesWithinBalance l body times) := by
  refine ⟨?_, sameRequests_balance body hty hpos times l, ?_⟩
  · exact Ledger.run_induction (fun s => F64.le F64.zero s.Balance = true)
      CreateTransaction_balance_nonneg l hB _
  · rintro ⟨B, hB53, hbal⟩ ⟨a, ha53, hamt⟩
    have hnat := sameRequests_whole body hty hpos a ha53 hamt times l B hB53 hbal
    unfold SuccessesWithinBalance F64.exact
    rw [hbal, hamt, F64.toRat_represents _ B (F64.ofNat_represents B hB53),
      F64.toRat_represents _ a (F64.ofNat_represents a ha53)]
    simp only [Option.getD]
    exact_mod_cast hnat

theorem concurrent_withdrawals_serialised_witness :
    F64.lt F64.zero (F64.ofNat 100) = true ∧
    F64.le F64.zero (F64.ofNat 250) = true ∧
    F64.le F64.zero
      (({ NewLedger 0 with Balance := F64.ofNat 250 } : Ledger).run
        (sameRequests ⟨"withdrawal", F64.ofNat 100, rfl⟩ [1, 2, 3])).Balance = true ∧
    SuccessesWithinBalance { NewLedger 0 with Balance := F64.ofNat 250 }
      ⟨"withdrawal", F64.ofNat 100, rfl⟩ [1, 2, 3] ∧
    countCreated
      (({ NewLedger 0 with Balance := F64.ofNat 250 } : Ledger).responses
        (sameRequests ⟨"withdrawal", F64.ofNat 100, rfl⟩ [1, 2, 3])) = 2 ∧
    (({ NewLedger 0 with Balance := F64.ofNat 250 } : Ledger).run
        (sameRequests ⟨"withdrawal", F64.ofNat 100, rfl⟩ [1, 2, 3])).Balance = F64.ofNat 50 :=
  ⟨by decide, by decide,
   (concurrent_withdrawals_serialised { NewLedger 0 with Balance := F64.ofNat 250 }
      ⟨"withdrawal", F64.ofNat 100, rfl⟩ [1, 2, 3] rfl (by decide) (by decide)).1,
   (concurrent_withdrawals_serialised { NewLedger 0 with Balance := F64.ofNat 250 }
      ⟨"withdrawal", F64.ofNat 100, rfl⟩ [1, 2, 3] rfl (by decide) (by decide)).2.2
      ⟨250, by norm_num, rfl⟩ ⟨100, by norm_num, rfl⟩,
   by decide, by decide⟩

end TinyLedger
